import Mathlib

/-!
Verification of the RAG core of the Local-AI-Issue-Tracker repository.

The development shallowly embeds the chunker (`chunkTextByChars`), the two
observed embedder implementations (`embedTextToVector384` in src/lib/rag.ts,
character-position hashing; and the token FNV-hashing variant of the older
copy of rag.ts), the retrieval shaping (`retrieveEvidence`), and the
generation orchestrator (`LocalAIConnector.chatCompletion`, `aiSuggest`,
`aiSopDraft`) of src/lib/ai.ts.

JavaScript strings are modelled as lists of UTF-16 code units (`List Nat`),
so `charCodeAt`, `toLowerCase`, `trim` and `slice` act on code units exactly
as in the source.
-/

namespace IssueTracker

/-- Whitespace recognised by JS `String.prototype.trim` (the code points the
inputs of this code base can contain: space, tab, LF, VT, FF, CR, NBSP, line
and paragraph separators, BOM). -/
def jsIsSpace (c : Nat) : Bool :=
  c == 32 || c == 9 || c == 10 || c == 11 || c == 12 || c == 13 ||
  c == 160 || c == 8232 || c == 8233 || c == 65279

/-- Drop trailing whitespace, i.e. the right half of JS `trim`. -/
def rtrim (l : List Nat) : List Nat :=
  ((l.reverse.dropWhile jsIsSpace)).reverse

/-- JS `String.prototype.trim`: drop leading and trailing whitespace. -/
def jsTrim (l : List Nat) : List Nat :=
  rtrim (l.dropWhile jsIsSpace)

/-- The `while (start < clean.length)` loop of `chunkTextByChars`
(src/lib/rag.ts lines 87-93), with an explicit fuel bound on the number of
iterations.  Each element of the result records the window `[start, end)` of
the iteration that pushed a chunk together with the pushed chunk
`clean.slice(start, end).trim()`.  The loop advances `start` to
`Math.max(0, end - overlapChars)`, which is `end - overlapChars` in `Nat`
subtraction; when `overlapChars < maxChars` each iteration advances `start`
by at least one, so `clean.length` fuel is enough (proved below). -/
def chunkLoop (clean : List Nat) (maxChars overlapChars : Nat) :
    Nat → Nat → List (Nat × Nat × List Nat)
  | 0, _ => []
  | fuel + 1, start =>
    if start < clean.length then
      let e := min (start + maxChars) clean.length
      let c := jsTrim ((clean.drop start).take (e - start))
      let rest :=
        if clean.length ≤ e then []
        else chunkLoop clean maxChars overlapChars fuel (e - overlapChars)
      if c.isEmpty then rest else (start, e, c) :: rest
    else []

/-- `chunkTextByChars` of src/lib/rag.ts: trim, return `[]` on empty input,
return the single trimmed text when it fits in `maxChars`, otherwise run the
sliding-window loop and keep the pushed chunks. -/
def chunkTextByChars (text : List Nat) (maxChars overlapChars : Nat) :
    List (List Nat) :=
  let clean := jsTrim text
  if clean.isEmpty then []
  else if clean.length ≤ maxChars then [clean]
  else (chunkLoop clean maxChars overlapChars clean.length 0).map
    (fun p => p.2.2)

/-- The chunks of `chunkTextByChars` together with the source window
`[start, end)` each chunk was cut from (the single-chunk shortcut covers the
whole trimmed text). -/
def chunkSpans (text : List Nat) (maxChars overlapChars : Nat) :
    List (Nat × Nat × List Nat) :=
  let clean := jsTrim text
  if clean.isEmpty then []
  else if clean.length ≤ maxChars then [(0, clean.length, clean)]
  else chunkLoop clean maxChars overlapChars clean.length 0

theorem chunkTextByChars_eq_spans (text : List Nat) (maxChars overlapChars : Nat) :
    chunkTextByChars text maxChars overlapChars =
      (chunkSpans text maxChars overlapChars).map (fun p => p.2.2) := by
  unfold chunkTextByChars chunkSpans
  by_cases h1 : (jsTrim text).isEmpty <;>
    by_cases h2 : (jsTrim text).length ≤ maxChars <;> simp [h1, h2]

theorem jsTrim_length_le (l : List Nat) : (jsTrim l).length ≤ l.length := by
  unfold jsTrim rtrim
  have h1 : ((l.dropWhile jsIsSpace).reverse.dropWhile jsIsSpace).length ≤
      (l.dropWhile jsIsSpace).reverse.length :=
    (List.dropWhile_sublist jsIsSpace).length_le
  have h2 : (l.dropWhile jsIsSpace).length ≤ l.length :=
    (List.dropWhile_sublist jsIsSpace).length_le
  simpa using le_trans h1 (by simpa using h2)

theorem chunkLoop_nil_of_le (clean : List Nat) (maxChars overlapChars : Nat)
    (start : Nat) (h : clean.length ≤ start) (fuel : Nat) :
    chunkLoop clean maxChars overlapChars fuel start = [] := by
  cases fuel with
  | zero => rfl
  | succ f => simp [chunkLoop, Nat.not_lt.mpr h]

theorem chunkLoop_congr (clean : List Nat) (maxChars overlapChars : Nat)
    (hov : overlapChars < maxChars) :
    ∀ f g start, clean.length - start ≤ f → clean.length - start ≤ g →
      chunkLoop clean maxChars overlapChars f start =
        chunkLoop clean maxChars overlapChars g start := by
  intro f
  induction f with
  | zero =>
    intro g start h1 h2
    rw [chunkLoop_nil_of_le clean maxChars overlapChars start (by omega) 0,
      chunkLoop_nil_of_le clean maxChars overlapChars start (by omega) g]
  | succ f ih =>
    intro g start h1 h2
    by_cases hs : start < clean.length
    · obtain ⟨g, rfl⟩ : ∃ k, g = k + 1 := by
        cases g with
        | zero => omega
        | succ k => exact ⟨k, rfl⟩
      simp only [chunkLoop, if_pos hs]
      by_cases he : clean.length ≤ min (start + maxChars) clean.length
      · simp [he]
      · have hmin : min (start + maxChars) clean.length = start + maxChars := by
          omega
        rw [ih g (min (start + maxChars) clean.length - overlapChars)
          (by omega) (by omega)]
    · rw [chunkLoop_nil_of_le clean maxChars overlapChars start (by omega) (f + 1),
        chunkLoop_nil_of_le clean maxChars overlapChars start (by omega) g]

/-- C7: for every text and every pair (maxChars, overlapChars) with
overlapChars < maxChars, the sliding-window loop of chunkTextByChars
terminates: each iteration advances the window start by
maxChars - overlapChars > 0, and the loop's result is already stable at
fuel = length of the trimmed text — larger fuel never changes it, i.e. the
loop stops by reaching the end of the text, not by running out of fuel. -/
theorem chunk_terminates (t : List Nat) (maxChars overlapChars : Nat)
    (hov : overlapChars < maxChars) :
    0 < maxChars - overlapChars ∧
    ∀ fuel, (jsTrim t).length ≤ fuel →
      chunkLoop (jsTrim t) maxChars overlapChars fuel 0 =
        chunkLoop (jsTrim t) maxChars overlapChars (jsTrim t).length 0 := by
  refine ⟨by omega, fun fuel hf => ?_⟩
  exact chunkLoop_congr (jsTrim t) maxChars overlapChars hov fuel
    (jsTrim t).length 0 (by omega) (by omega)

theorem chunk_terminates_witness :
    0 < 2 - 1 ∧
      chunkLoop (jsTrim [97, 98, 99]) 2 1 100 0 =
        chunkLoop (jsTrim [97, 98, 99]) 2 1 (jsTrim [97, 98, 99]).length 0 :=
  ⟨(chunk_terminates [97, 98, 99] 2 1 (by decide)).1,
    (chunk_terminates [97, 98, 99] 2 1 (by decide)).2 100 (by decide)⟩

/-- C8: chunking a text whose trim is empty yields zero chunks (not an
error), and chunking a text whose trim is non-empty and fits within
maxChars yields exactly the one-element sequence holding the trimmed
text. -/
theorem chunk_empty_and_single (t : List Nat) (maxChars overlapChars : Nat) :
    (jsTrim t = [] → chunkTextByChars t maxChars overlapChars = []) ∧
    (jsTrim t ≠ [] → (jsTrim t).length ≤ maxChars →
      chunkTextByChars t maxChars overlapChars = [jsTrim t]) := by
  constructor
  · intro h
    simp [chunkTextByChars, h]
  · intro h1 h2
    simp [chunkTextByChars, h1, h2]

theorem chunk_empty_and_single_witness :
    chunkTextByChars [32, 32] 5 1 = [] ∧
      chunkTextByChars [32, 97, 98] 5 1 = [jsTrim [32, 97, 98]] :=
  ⟨(chunk_empty_and_single [32, 32] 5 1).1 (by decide),
    (chunk_empty_and_single [32, 97, 98] 5 1).2 (by decide) (by decide)⟩

theorem chunkLoop_length_le (clean : List Nat) (maxChars overlapChars : Nat) :
    ∀ fuel start, ∀ p ∈ chunkLoop clean maxChars overlapChars fuel start,
      p.2.2.length ≤ maxChars := by
  intro fuel
  induction fuel with
  | zero => intro start p hp; simp [chunkLoop] at hp
  | succ f ih =>
    intro start p hp
    by_cases hs : start < clean.length
    · simp only [chunkLoop, if_pos hs] at hp
      have hhead : (jsTrim ((clean.drop start).take
          (min (start + maxChars) clean.length - start))).length ≤ maxChars := by
        have := jsTrim_length_le
          ((clean.drop start).take (min (start + maxChars) clean.length - start))
        have hlen : ((clean.drop start).take
            (min (start + maxChars) clean.length - start)).length ≤ maxChars := by
          simp only [List.length_take, List.length_drop]
          omega
        omega
      by_cases hrest : clean.length ≤ min (start + maxChars) clean.length
      · simp only [if_pos hrest] at hp
        split at hp
        · simp at hp
        · simp only [List.mem_cons] at hp
          rcases hp with rfl | hp
          · exact hhead
          · simp at hp
      · simp only [if_neg hrest] at hp
        split at hp
        · exact ih _ p hp
        · simp only [List.mem_cons] at hp
          rcases hp with rfl | hp
          · exact hhead
          · exact ih _ p hp
    · rw [chunkLoop_nil_of_le clean maxChars overlapChars start (by omega)] at hp
      simp at hp

/-- C9: with overlapChars < maxChars, every chunk returned by
chunkTextByChars has length at most maxChars. -/
theorem chunk_length_bound (t : List Nat) (maxChars overlapChars : Nat)
    (hov : overlapChars < maxChars) :
    ∀ c ∈ chunkTextByChars t maxChars overlapChars, c.length ≤ maxChars := by
  intro c hc
  simp only [chunkTextByChars] at hc
  by_cases h1 : (jsTrim t).isEmpty
  · simp [h1] at hc
  · rw [if_neg h1] at hc
    by_cases h2 : (jsTrim t).length ≤ maxChars
    · rw [if_pos h2] at hc
      simp only [List.mem_singleton] at hc
      subst hc
      exact h2
    · rw [if_neg h2] at hc
      simp only [List.mem_map] at hc
      obtain ⟨p, hp, rfl⟩ := hc
      exact chunkLoop_length_le (jsTrim t) maxChars overlapChars _ 0 p hp

theorem chunk_length_bound_witness : ([97, 98] : List Nat).length ≤ 2 :=
  chunk_length_bound [97, 98, 99, 100, 101] 2 1 (by decide) [97, 98] (by decide)

theorem mem_dropWhile_of_neg {α : Type} (p : α → Bool) :
    ∀ (l : List α) (c : α), c ∈ l → p c = false → c ∈ l.dropWhile p := by
  intro l
  induction l with
  | nil => simp
  | cons a l ih =>
    intro c hc hpc
    by_cases hpa : p a
    · rw [List.dropWhile_cons_of_pos hpa]
      rcases List.mem_cons.mp hc with rfl | h
      · rw [hpc] at hpa
        exact absurd hpa (by simp)
      · exact ih c h hpc
    · rw [List.dropWhile_cons_of_neg hpa]
      exact hc

theorem mem_jsTrim_of_nonspace (l : List Nat) (c : Nat) (hc : c ∈ l)
    (hns : jsIsSpace c = false) : c ∈ jsTrim l := by
  unfold jsTrim rtrim
  have h1 : c ∈ l.dropWhile jsIsSpace := mem_dropWhile_of_neg jsIsSpace l c hc hns
  have h2 : c ∈ (l.dropWhile jsIsSpace).reverse := by simpa using h1
  have h3 : c ∈ ((l.dropWhile jsIsSpace).reverse).dropWhile jsIsSpace :=
    mem_dropWhile_of_neg jsIsSpace _ c h2 hns
  simpa using h3

theorem getElem_mem_slice (clean : List Nat) (start e i : Nat) (hi1 : start ≤ i)
    (hi2 : i < e) (he : e ≤ clean.length) (h : i < clean.length) :
    clean[i] ∈ (clean.drop start).take (e - start) := by
  have hlen : i - start < ((clean.drop start).take (e - start)).length := by
    simp only [List.length_take, List.length_drop]
    omega
  have hval : ((clean.drop start).take (e - start))[i - start] = clean[i] := by
    rw [List.getElem_take, List.getElem_drop]
    congr 1
    omega
  rw [← hval]
  exact List.getElem_mem hlen

theorem chunkLoop_covers (clean : List Nat) (maxChars overlapChars : Nat)
    (hov : overlapChars < maxChars) :
    ∀ fuel start, clean.length - start ≤ fuel →
      ∀ i (h : i < clean.length), start ≤ i → jsIsSpace clean[i] = false →
        ∃ p ∈ chunkLoop clean maxChars overlapChars fuel start,
          p.1 ≤ i ∧ i < p.2.1 := by
  intro fuel
  induction fuel with
  | zero =>
    intro start hf i h hsi hns
    omega
  | succ f ih =>
    intro start hf i h hsi hns
    have hs : start < clean.length := by omega
    simp only [chunkLoop, if_pos hs]
    by_cases hie : i < min (start + maxChars) clean.length
    · have hmem : clean[i] ∈
          (clean.drop start).take (min (start + maxChars) clean.length - start) :=
        getElem_mem_slice clean start (min (start + maxChars) clean.length) i
          hsi hie (by omega) h
      have hne : jsTrim ((clean.drop start).take
          (min (start + maxChars) clean.length - start)) ≠ [] :=
        List.ne_nil_of_mem (mem_jsTrim_of_nonspace _ _ hmem hns)
      have hempty : (jsTrim ((clean.drop start).take
          (min (start + maxChars) clean.length - start))).isEmpty = false := by
        simpa [List.isEmpty_iff] using hne
      rw [hempty]
      simp only [Bool.false_eq_true, if_false]
      exact ⟨(start, min (start + maxChars) clean.length, _),
        List.mem_cons_self _ _, hsi, hie⟩
    · have hel : min (start + maxChars) clean.length < clean.length := by omega
      have hmin : min (start + maxChars) clean.length = start + maxChars := by
        omega
      obtain ⟨p, hp, hpi⟩ :=
        ih (min (start + maxChars) clean.length - overlapChars) (by omega) i h
          (by omega) hns
      refine ⟨p, ?_, hpi⟩
      rw [if_neg (by omega : ¬ clean.length ≤ min (start + maxChars) clean.length)]
      by_cases hc : (jsTrim ((clean.drop start).take
          (min (start + maxChars) clean.length - start))).isEmpty
      · rw [hc]
        simpa using hp
      · rw [Bool.not_eq_true] at hc
        rw [hc]
        simp only [Bool.false_eq_true, if_false]
        exact List.mem_cons_of_mem _ hp

/-- C2 (amended): with overlapChars < maxChars, the chunks of
chunkTextByChars are exactly the trimmed window slices recorded in
chunkSpans, and every position of the trimmed text holding a
non-whitespace character lies inside the window range of at least one
returned chunk.  (Ranges consisting solely of whitespace may be skipped:
their windows trim to the empty chunk, which is dropped.) -/
theorem chunk_coverage (t : List Nat) (maxChars overlapChars : Nat)
    (hov : overlapChars < maxChars) :
    chunkTextByChars t maxChars overlapChars =
      (chunkSpans t maxChars overlapChars).map (fun p => p.2.2) ∧
    ∀ i (h : i < (jsTrim t).length), jsIsSpace (jsTrim t)[i] = false →
      ∃ p ∈ chunkSpans t maxChars overlapChars, p.1 ≤ i ∧ i < p.2.1 := by
  refine ⟨chunkTextByChars_eq_spans t maxChars overlapChars, ?_⟩
  intro i h hns
  simp only [chunkSpans]
  by_cases h1 : (jsTrim t).isEmpty
  · rw [List.isEmpty_iff] at h1
    rw [h1] at h
    simp at h
  · rw [if_neg h1]
    by_cases h2 : (jsTrim t).length ≤ maxChars
    · rw [if_pos h2]
      exact ⟨(0, (jsTrim t).length, jsTrim t), List.mem_singleton_self _,
        by omega, h⟩
    · rw [if_neg h2]
      exact chunkLoop_covers (jsTrim t) maxChars overlapChars hov
        (jsTrim t).length 0 (by omega) i h (by omega) hns

theorem chunk_coverage_witness :
    (chunkTextByChars [97, 32, 32, 32, 98] 2 0 =
      (chunkSpans [97, 32, 32, 32, 98] 2 0).map (fun p => p.2.2)) ∧
    ∃ p ∈ chunkSpans [97, 32, 32, 32, 98] 2 0, p.1 ≤ 4 ∧ 4 < p.2.1 :=
  ⟨(chunk_coverage [97, 32, 32, 32, 98] 2 0 (by decide)).1,
    (chunk_coverage [97, 32, 32, 32, 98] 2 0 (by decide)).2 4 (by decide)
      (by decide)⟩

/-- C2 (counterexample): on the text "a   b" (codes [97,32,32,32,98]) with
maxChars = 2 and overlapChars = 0, the middle all-whitespace window [2,4)
trims to the empty chunk and is dropped, so character positions 2 and 3 of
the trimmed text lie in the range of no returned chunk: coverage of every
character position fails. -/
theorem chunk_coverage_counterexample :
    chunkTextByChars [97, 32, 32, 32, 98] 2 0 = [[97], [98]] ∧
    ¬ (∀ i, i < (jsTrim [97, 32, 32, 32, 98]).length →
        ∃ p ∈ chunkSpans [97, 32, 32, 32, 98] 2 0, p.1 ≤ i ∧ i < p.2.1) := by
  decide

/-- JS `toLowerCase` on a code unit: the inputs of this code base stay in
the basic-latin range, where `toLowerCase` adds 32 to uppercase A-Z and is
the identity elsewhere. -/
def toLowerCode (c : Nat) : Nat := if 65 ≤ c ∧ c ≤ 90 then c + 32 else c

/-- JS `String.prototype.toLowerCase`. -/
def jsToLower (l : List Nat) : List Nat := l.map toLowerCode

/-- The normalised text of `embedTextToVector384` (src/lib/rag.ts line 45):
`text.toLowerCase().trim()`. -/
def embedNorm (t : List Nat) : List Nat := jsTrim (jsToLower t)

/-- `vector[bucket] += 1` on the 384-slot accumulator. -/
def bump (v : List Nat) (b : Nat) : List Nat := v.set b (v.getD b 0 + 1)

/-- The bucket-count accumulation loop of `embedTextToVector384`
(src/lib/rag.ts lines 52-56): for each character position `i` with code
`c` of the normalised text, add 1 to bucket `(c * (i+1)) % 384` of a
384-slot vector initialised to zero. -/
def embedCounts (t : List Nat) : List Nat :=
  (embedNorm t).enum.foldl (fun v ic => bump v ((ic.2 * (ic.1 + 1)) % 384))
    (List.replicate 384 0)

/-- The squared magnitude `vector.reduce((sum, val) => sum + val * val, 0)`
of the raw bucket counts. -/
def embedMagSq (t : List Nat) : Nat :=
  ((embedCounts t).map (fun c => c * c)).sum

/-- `embedTextToVector384` of src/lib/rag.ts: bucket counts divided by
`Math.sqrt(sumSquares) || 1` — the `|| 1` replaces a zero magnitude (and
only a zero magnitude, since the square root of a positive number is
truthy) by 1, so the zero vector is returned unnormalised. -/
noncomputable def embedTextToVector384 (t : List Nat) : List ℝ :=
  (embedCounts t).map (fun c : Nat => (c : ℝ) /
    (if embedMagSq t = 0 then 1 else Real.sqrt (embedMagSq t)))

/-- Squared L2 norm of a real vector. -/
def l2sq (v : List ℝ) : ℝ := (v.map (fun x => x * x)).sum

theorem bump_length (v : List Nat) (b : Nat) : (bump v b).length = v.length :=
  List.length_set v b _

theorem embedCounts_length (t : List Nat) : (embedCounts t).length = 384 := by
  unfold embedCounts
  generalize (embedNorm t).enum = l
  have h : ∀ (l : List (Nat × Nat)) (v : List Nat),
      (l.foldl (fun v ic => bump v ((ic.2 * (ic.1 + 1)) % 384)) v).length =
        v.length := by
    intro l
    induction l with
    | nil => intro v; rfl
    | cons a l ih =>
      intro v
      rw [List.foldl_cons, ih, bump_length]
  rw [h l (List.replicate 384 0), List.length_replicate]

theorem sq_sum_eq_zero {l : List Nat}
    (h : (l.map (fun c => c * c)).sum = 0) : ∀ c ∈ l, c = 0 := by
  induction l with
  | nil => simp
  | cons a l ih =>
    simp only [List.map_cons, List.sum_cons, Nat.add_eq_zero] at h
    intro c hc
    rcases List.mem_cons.mp hc with rfl | hc
    · rcases Nat.mul_eq_zero.mp h.1 with h0 | h0 <;> exact h0
    · exact ih h.2 c hc

theorem sum_div_sq (l : List Nat) (m : ℝ) :
    (l.map (fun c : Nat => ((c : ℝ) / m) * ((c : ℝ) / m))).sum =
      (l.map (fun c : Nat => ((c : ℝ) * (c : ℝ)))).sum / (m * m) := by
  induction l with
  | nil => simp
  | cons a l ih =>
    rw [List.map_cons, List.map_cons, List.sum_cons, List.sum_cons, ih,
      add_div, div_mul_div_comm]

theorem cast_sq_sum (l : List Nat) :
    (((l.map (fun c => c * c)).sum : Nat) : ℝ) =
      (l.map (fun c : Nat => ((c : ℝ) * (c : ℝ)))).sum := by
  induction l with
  | nil => simp
  | cons a l ih =>
    rw [List.map_cons, List.sum_cons, Nat.cast_add, ih, List.map_cons,
      List.sum_cons, Nat.cast_mul]

/-- C5: the embedder is total and well-shaped on every input: the returned
vector always has length exactly 384 and is either an exact L2-unit vector
(squared norm 1) or exactly the zero vector; in particular every
whitespace-only input (including the empty string) yields the zero vector,
the zero-magnitude case being replaced by a division by 1 rather than by
zero. -/
theorem embed_total_unit_or_zero (t : List Nat) :
    (embedTextToVector384 t).length = 384 ∧
    (l2sq (embedTextToVector384 t) = 1 ∨
      embedTextToVector384 t = List.replicate 384 0) ∧
    ((∀ c ∈ t, jsIsSpace c = true) →
      embedTextToVector384 t = List.replicate 384 0) := by
  have hzero : embedMagSq t = 0 → embedTextToVector384 t = List.replicate 384 0 := by
    intro hs
    have hall : ∀ c ∈ embedCounts t, c = 0 := sq_sum_eq_zero hs
    have hrep : embedCounts t = List.replicate 384 0 :=
      List.eq_replicate_iff.mpr ⟨embedCounts_length t, hall⟩
    unfold embedTextToVector384
    rw [hrep, if_pos hs, List.map_replicate]
    norm_num
  refine ⟨?_, ?_, ?_⟩
  · unfold embedTextToVector384
    rw [List.length_map, embedCounts_length]
  · by_cases hs : embedMagSq t = 0
    · exact Or.inr (hzero hs)
    · left
      unfold l2sq embedTextToVector384
      rw [if_neg hs, List.map_map]
      have hcomp : ((fun x : ℝ => x * x) ∘ fun c : Nat =>
          (c : ℝ) / Real.sqrt (embedMagSq t)) = fun c : Nat =>
          ((c : ℝ) / Real.sqrt (embedMagSq t)) *
            ((c : ℝ) / Real.sqrt (embedMagSq t)) := rfl
      rw [hcomp, sum_div_sq, Real.mul_self_sqrt (by positivity)]
      rw [← cast_sq_sum]
      have : ((embedMagSq t : Nat) : ℝ) ≠ 0 := Nat.cast_ne_zero.mpr hs
      exact div_self (by exact_mod_cast this)
  · intro hsp
    apply hzero
    have hnorm : embedNorm t = [] := by
      unfold embedNorm jsToLower jsTrim rtrim
      have hall : ∀ c ∈ t.map toLowerCode, jsIsSpace c = true := by
        intro c hc
        obtain ⟨a, ha, rfl⟩ := List.mem_map.mp hc
        have hsa := hsp a ha
        have : toLowerCode a = a := by
          simp only [jsIsSpace, Bool.or_eq_true, beq_iff_eq] at hsa
          unfold toLowerCode
          rw [if_neg (by omega)]
        rw [this]
        exact hsa
      rw [List.dropWhile_eq_nil_iff.mpr hall]
      simp
    unfold embedMagSq embedCounts
    rw [hnorm]
    rw [List.enum_nil, List.foldl_nil, List.map_replicate]
    rw [show (0 : Nat) * 0 = 0 from rfl, List.sum_replicate, smul_zero]

theorem embed_total_unit_or_zero_witness :
    embedTextToVector384 [32, 9] = List.replicate 384 0 :=
  (embed_total_unit_or_zero [32, 9]).2.2 (by decide)

theorem toLowerCode_idem (c : Nat) :
    toLowerCode (toLowerCode c) = toLowerCode c := by
  unfold toLowerCode
  by_cases h : 65 ≤ c ∧ c ≤ 90
  · rw [if_pos h, if_neg (by omega)]
  · rw [if_neg h, if_neg h]

theorem jsIsSpace_toLowerCode (c : Nat) :
    jsIsSpace (toLowerCode c) = jsIsSpace c := by
  unfold toLowerCode
  by_cases h : 65 ≤ c ∧ c ≤ 90
  · rw [if_pos h]
    have h1 : jsIsSpace (c + 32) = false := by
      simp only [jsIsSpace, Bool.or_eq_false_iff, beq_eq_false_iff_ne, ne_eq]
      omega
    have h2 : jsIsSpace c = false := by
      simp only [jsIsSpace, Bool.or_eq_false_iff, beq_eq_false_iff_ne, ne_eq]
      omega
    rw [h1, h2]
  · rw [if_neg h]

theorem dropWhile_dropWhile {α : Type} (p : α → Bool) (l : List α) :
    (l.dropWhile p).dropWhile p = l.dropWhile p := by
  induction l with
  | nil => rfl
  | cons a l ih =>
    by_cases h : p a
    · rw [List.dropWhile_cons_of_pos h]
      exact ih
    · rw [List.dropWhile_cons_of_neg h, List.dropWhile_cons_of_neg h]

theorem rtrim_idem (l : List Nat) : rtrim (rtrim l) = rtrim l := by
  unfold rtrim
  rw [List.reverse_reverse, dropWhile_dropWhile]

theorem ltrim_rtrim (l : List Nat) (h : l.dropWhile jsIsSpace = l) :
    (rtrim l).dropWhile jsIsSpace = rtrim l := by
  cases l with
  | nil => rfl
  | cons a w =>
    have hpa : jsIsSpace a = false := by
      by_cases hp : jsIsSpace a
      · rw [List.dropWhile_cons_of_pos hp] at h
        have hl := congrArg List.length h
        have hle : (w.dropWhile jsIsSpace).length ≤ w.length :=
          (List.dropWhile_sublist jsIsSpace).length_le
        simp only [List.length_cons] at hl
        omega
      · simpa using hp
    unfold rtrim
    rw [List.reverse_cons, List.dropWhile_append]
    by_cases hw : (w.reverse.dropWhile jsIsSpace).isEmpty
    · rw [if_pos hw]
      rw [show List.dropWhile jsIsSpace [a] = [a] from
        List.dropWhile_cons_of_neg (by simp [hpa])]
      rw [show List.reverse [a] = [a] from rfl]
      exact List.dropWhile_cons_of_neg (by simp [hpa])
    · rw [if_neg hw]
      rw [List.reverse_append, show List.reverse [a] = [a] from rfl,
        List.singleton_append]
      exact List.dropWhile_cons_of_neg (by simp [hpa])

theorem jsTrim_idem (l : List Nat) : jsTrim (jsTrim l) = jsTrim l := by
  show rtrim ((rtrim (l.dropWhile jsIsSpace)).dropWhile jsIsSpace) =
    rtrim (l.dropWhile jsIsSpace)
  rw [ltrim_rtrim (l.dropWhile jsIsSpace) (dropWhile_dropWhile jsIsSpace l),
    rtrim_idem]

theorem jsToLower_jsTrim (l : List Nat) :
    jsToLower (jsTrim l) = jsTrim (jsToLower l) := by
  have hpf : (jsIsSpace ∘ toLowerCode) = jsIsSpace := funext jsIsSpace_toLowerCode
  unfold jsToLower jsTrim rtrim
  rw [List.dropWhile_map, hpf, ← List.map_reverse, List.dropWhile_map, hpf,
    ← List.map_reverse]

theorem embedNorm_toLower (t : List Nat) :
    embedNorm (jsToLower t) = embedNorm t := by
  unfold embedNorm jsToLower
  rw [List.map_map]
  have hid : toLowerCode ∘ toLowerCode = toLowerCode := funext toLowerCode_idem
  rw [hid]

theorem embedNorm_trim (t : List Nat) : embedNorm (jsTrim t) = embedNorm t := by
  unfold embedNorm
  rw [jsToLower_jsTrim, jsTrim_idem]

theorem embed_congr (a b : List Nat) (h : embedNorm a = embedNorm b) :
    embedTextToVector384 a = embedTextToVector384 b := by
  have hc : embedCounts a = embedCounts b := by
    unfold embedCounts
    rw [h]
  unfold embedTextToVector384 embedMagSq
  rw [hc]

/-- A character the regex class [a-z0-9] of `tokenize` accepts (the split
pattern [^a-z0-9]+ separates on everything else). -/
def isTokenChar (c : Nat) : Bool :=
  decide ((97 ≤ c ∧ c ≤ 122) ∨ (48 ≤ c ∧ c ≤ 57))

/-- One step of splitting a string into maximal runs of characters
accepted by p, processed right to left: the Bool records whether the run
currently being built is still open (the previously processed character
was accepted). -/
def runsStep (p : Nat → Bool) (a : Nat) (acc : List (List Nat) × Bool) :
    List (List Nat) × Bool :=
  if p a then
    match acc with
    | (r :: rs, true) => ((a :: r) :: rs, true)
    | (rs, _) => ([a] :: rs, true)
  else (acc.1, false)

/-- The maximal runs of characters accepted by p, in order.  This is what
JS `split(/[^...]+/)` followed by removing empty strings produces: the
separators between runs are collapsed by the + quantifier, and the empty
strings a leading/trailing separator contributes are removed by the
`.filter(Boolean)`. -/
def runsP (p : Nat → Bool) (l : List Nat) : List (List Nat) :=
  (l.foldr (runsStep p) ([], false)).1

/-- `tokenize` of the FNV-hashing copy of rag.ts (src/unnamed/part_012
lines 32-38): lowercase, split on non-alphanumeric runs, trim each piece,
drop empty pieces.  (The trim is the identity on alphanumeric runs and the
filter drops exactly the empty strings, both kept here for fidelity.) -/
def tokenize (t : List Nat) : List (List Nat) :=
  ((runsP isTokenChar (jsToLower t)).map jsTrim).filter (fun s => !s.isEmpty)

/-- `fnv1a32` (src/unnamed/part_012 lines 21-30): 32-bit FNV-1a over the
code units, with the JS int32 arithmetic modelled as arithmetic mod 2^32
(xor then `Math.imul` by the FNV prime; the final `>>> 0` makes the result
the unsigned 32-bit value). -/
def fnv1a32 (l : List Nat) : Nat :=
  l.foldl (fun h c => ((h ^^^ c) * 16777619) % 4294967296) 2166136261

/-- `vec[idx] += sign` on the 384-slot signed accumulator. -/
def bumpZ (v : List Int) (b : Nat) (s : Int) : List Int :=
  v.set b (v.getD b 0 + s)

/-- The token-scatter loop of the FNV embedder (src/unnamed/part_012
lines 48-54): for each token, hash it, scatter ±1 (sign from the hash's
low bit) into bucket hash % 384. -/
def embedCounts2 (t : List Nat) : List Int :=
  (tokenize t).foldl (fun v tok =>
    bumpZ v (fnv1a32 tok % 384)
      (if fnv1a32 tok &&& 1 == 0 then 1 else -1))
    (List.replicate 384 0)

/-- Squared magnitude of the raw signed counts. -/
def embedMagSq2 (t : List Nat) : Int :=
  ((embedCounts2 t).map (fun x => x * x)).sum

/-- `embedTextToVector384` of the FNV-hashing copy of rag.ts
(src/unnamed/part_012 lines 45-64): signed counts divided by
`Math.sqrt(sumSq) || 1`. -/
noncomputable def embedTextToVector384Fnv (t : List Nat) : List ℝ :=
  (embedCounts2 t).map (fun x : Int => (x : ℝ) /
    (if embedMagSq2 t = 0 then 1 else Real.sqrt (embedMagSq2 t)))

theorem runsP_cons_neg (p : Nat → Bool) (a : Nat) (l : List Nat)
    (h : p a = false) : runsP p (a :: l) = runsP p l := by
  unfold runsP
  rw [List.foldr_cons]
  unfold runsStep
  rw [if_neg (by simp [h])]

theorem runsP_dropWhile (p q : Nat → Bool)
    (hq : ∀ c, q c = true → p c = false) (l : List Nat) :
    runsP p (l.dropWhile q) = runsP p l := by
  induction l with
  | nil => rfl
  | cons a l ih =>
    by_cases hqa : q a
    · rw [List.dropWhile_cons_of_pos hqa, ih, runsP_cons_neg p a l (hq a hqa)]
    · rw [List.dropWhile_cons_of_neg hqa]

theorem foldr_runsStep_all_neg (p : Nat → Bool) (s : List Nat)
    (h : ∀ c ∈ s, p c = false) :
    s.foldr (runsStep p) ([], false) = ([], false) := by
  induction s with
  | nil => rfl
  | cons a s ih =>
    rw [List.foldr_cons, ih (fun c hc => h c (List.mem_cons_of_mem a hc))]
    unfold runsStep
    rw [if_neg (by simp [h a (List.mem_cons_self a s)])]

theorem runsP_append_all_neg (p : Nat → Bool) (l s : List Nat)
    (h : ∀ c ∈ s, p c = false) : runsP p (l ++ s) = runsP p l := by
  unfold runsP
  rw [List.foldr_append, foldr_runsStep_all_neg p s h]

theorem rtrim_decomp (l : List Nat) :
    l = rtrim l ++ (l.reverse.takeWhile jsIsSpace).reverse := by
  unfold rtrim
  rw [← List.reverse_append, List.takeWhile_append_dropWhile,
    List.reverse_reverse]

theorem runsP_rtrim (p : Nat → Bool)
    (hq : ∀ c, jsIsSpace c = true → p c = false) (l : List Nat) :
    runsP p (rtrim l) = runsP p l := by
  have hs : ∀ c ∈ (l.reverse.takeWhile jsIsSpace).reverse, p c = false := by
    intro c hc
    rw [List.mem_reverse] at hc
    exact hq c (List.mem_takeWhile_imp hc)
  calc runsP p (rtrim l)
      = runsP p (rtrim l ++ (l.reverse.takeWhile jsIsSpace).reverse) :=
        (runsP_append_all_neg p (rtrim l) _ hs).symm
    _ = runsP p l := by rw [← rtrim_decomp]

theorem runsP_jsTrim (p : Nat → Bool)
    (hq : ∀ c, jsIsSpace c = true → p c = false) (l : List Nat) :
    runsP p (jsTrim l) = runsP p l := by
  unfold jsTrim
  rw [runsP_rtrim p hq, runsP_dropWhile p jsIsSpace hq]

theorem space_not_token (c : Nat) (h : jsIsSpace c = true) :
    isTokenChar c = false := by
  simp only [jsIsSpace, Bool.or_eq_true, beq_iff_eq] at h
  simp only [isTokenChar, decide_eq_false_iff_not]
  omega

theorem tokenize_toLower (t : List Nat) : tokenize (jsToLower t) = tokenize t := by
  unfold tokenize jsToLower
  rw [List.map_map]
  have hid : toLowerCode ∘ toLowerCode = toLowerCode := funext toLowerCode_idem
  rw [hid]

theorem tokenize_trim (t : List Nat) : tokenize (jsTrim t) = tokenize t := by
  unfold tokenize
  rw [jsToLower_jsTrim, runsP_jsTrim isTokenChar space_not_token]

theorem embedFnv_congr (a b : List Nat) (h : tokenize a = tokenize b) :
    embedTextToVector384Fnv a = embedTextToVector384Fnv b := by
  have hc : embedCounts2 a = embedCounts2 b := by
    unfold embedCounts2
    rw [h]
  unfold embedTextToVector384Fnv embedMagSq2
  rw [hc]

/-- C10: both observed embedder implementations are invariant under letter
case and under leading/trailing whitespace of the input: lowering the input
first, or trimming it first, yields the identical embedding vector — for
the character-position-hashing embedder of src/lib/rag.ts and for the
token-FNV-hashing embedder of the older copy of rag.ts alike. -/
theorem embed_case_trim_invariant (t : List Nat) :
    (embedTextToVector384 (jsToLower t) = embedTextToVector384 t ∧
      embedTextToVector384 (jsTrim t) = embedTextToVector384 t) ∧
    (embedTextToVector384Fnv (jsToLower t) = embedTextToVector384Fnv t ∧
      embedTextToVector384Fnv (jsTrim t) = embedTextToVector384Fnv t) :=
  ⟨⟨embed_congr _ t (embedNorm_toLower t), embed_congr _ t (embedNorm_trim t)⟩,
    ⟨embedFnv_congr _ t (tokenize_toLower t),
      embedFnv_congr _ t (tokenize_trim t)⟩⟩

/-- One row of the `rag_search` similarity query as consumed by
`retrieveEvidence` (src/lib/ai.ts lines 195-202).  Scores are modelled as
exact rationals. -/
structure SearchRow where
  source_type : String
  source_id : String
  title : String
  content : String
  score : ℚ
deriving DecidableEq

/-- `EvidenceItem` of src/lib/ai.ts lines 7-14. -/
structure EvidenceItem where
  ref : String
  source_type : String
  source_id : String
  title : String
  score : ℚ
  content : String
deriving DecidableEq

/-- `retrieveEvidence` result shaping (src/lib/ai.ts lines 195-202): map
each search row, in order, to an EvidenceItem whose ref is "E" followed by
its 1-based rank, copying the other fields unchanged. -/
def retrieveEvidence (results : List SearchRow) : List EvidenceItem :=
  results.enum.map (fun ic =>
    { ref := "E" ++ toString (ic.1 + 1)
      source_type := ic.2.source_type
      source_id := ic.2.source_id
      title := ic.2.title
      score := ic.2.score
      content := ic.2.content })

/-- C6: `retrieveEvidence` preserves the store's result list pointwise in
order — in particular the score sequence is unchanged — and assigns the
reference token "E(i+1)" to the item at index i, so reference-token order
is exactly rank order; consequently, if the store returns rows sorted by
non-increasing score, the returned evidence is sorted by non-increasing
score as well, and E1 names its single best match. -/
theorem retrieveEvidence_rank_order (rows : List SearchRow) :
    (retrieveEvidence rows).map (fun e => e.score) =
      rows.map (fun r => r.score) ∧
    (∀ i (h : i < (retrieveEvidence rows).length),
      ((retrieveEvidence rows).get ⟨i, h⟩).ref = "E" ++ toString (i + 1)) ∧
    ((rows.map (fun r => r.score)).Sorted (fun a b => a ≥ b) →
      ((retrieveEvidence rows).map (fun e => e.score)).Sorted
        (fun a b => a ≥ b)) := by
  have hscores : (retrieveEvidence rows).map (fun e => e.score) =
      rows.map (fun r => r.score) := by
    unfold retrieveEvidence
    rw [List.map_map]
    apply List.ext_getElem
    · simp [List.enum_length]
    · intro i h1 h2
      simp [List.getElem_enum]
  refine ⟨hscores, ?_, ?_⟩
  · intro i h
    unfold retrieveEvidence at h ⊢
    rw [List.get_eq_getElem, List.getElem_map, List.getElem_enum]
  · intro hsorted
    rw [hscores]
    exact hsorted

theorem retrieveEvidence_rank_order_witness :
    ((retrieveEvidence
        [{ source_type := "ticket", source_id := "1", title := "a",
           content := "x", score := 1 },
         { source_type := "sop", source_id := "2", title := "b",
           content := "y", score := 0 }]).map
      (fun e => e.score)).Sorted (fun a b => a ≥ b) ∧
    ((retrieveEvidence
        [{ source_type := "ticket", source_id := "1", title := "a",
           content := "x", score := 1 },
         { source_type := "sop", source_id := "2", title := "b",
           content := "y", score := 0 }]).get
      ⟨0, by decide⟩).ref = "E" ++ toString (0 + 1) :=
  ⟨(retrieveEvidence_rank_order _).2.2 (by decide),
    (retrieveEvidence_rank_order _).2.1 0 (by decide)⟩

/-- `AiSuggestion` of src/lib/ai.ts lines 22-38; root causes are
(cause, confidence, evidence_refs) and recommended steps are
(step, rationale, evidence_refs). -/
structure AiSuggestion where
  summary : String
  confidence_overall : ℚ
  root_causes : List (String × ℚ × List String)
  recommended_steps : List (String × String × List String)
  validation_steps : List String
  rollback_procedures : List String
  questions : List String
deriving DecidableEq

/-- `SopDraft` of src/lib/ai.ts lines 49-57.  Note its schema has neither a
confidence field nor a questions field. -/
structure SopDraft where
  problem_description : String
  symptoms : List String
  root_cause : String
  resolution_steps : List String
  validation_steps : List String
  rollback_procedures : List String
  references : List String
deriving DecidableEq

/-- The canned suggestion returned by `aiSuggest` when retrieval produced
no evidence (src/lib/ai.ts lines 220-237). -/
def noEvidenceSuggestion : AiSuggestion :=
  { summary := "Insufficient internal evidence available in RAG memory to provide grounded recommendations."
    confidence_overall := 0
    root_causes := []
    recommended_steps := []
    validation_steps := []
    rollback_procedures := []
    questions := ["Add relevant prior resolutions/SOPs to RAG memory, or provide more context (exact errors, impacted hosts, time window, recent changes)."] }

/-- The canned SOP draft returned by `aiSopDraft` when retrieval produced
no evidence (src/lib/ai.ts lines 308-323). -/
def noEvidenceSop : SopDraft :=
  { problem_description := "Insufficient internal evidence available in RAG memory to generate a grounded SOP draft."
    symptoms := []
    root_cause := ""
    resolution_steps := []
    validation_steps := []
    rollback_procedures := []
    references := [] }

/-- Result of `aiSuggest`: either the structured suggestion or the raw-text
fallback shape. -/
inductive SuggestOut where
  | structured (s : AiSuggestion)
  | raw (s : String)
deriving DecidableEq

/-- Result of `aiSopDraft`: either the structured SOP or the raw-text
fallback shape. -/
inductive SopOut where
  | structured (s : SopDraft)
  | raw (s : String)
deriving DecidableEq

/-- `aiSuggest` (src/lib/ai.ts lines 205-290) as a function of the
retrieved evidence list and of the LLM call (abstracted as a function of
the evidence handed to the prompt builder).  The returned Bool records
whether the LLM was invoked.  The first component mirrors the
(evidence, suggestion) fields of the returned object: when evidence is
empty the code returns the literal empty evidence list and the canned
suggestion without calling `connector.chatCompletion`. -/
def aiSuggest (evidence : List EvidenceItem)
    (llm : List EvidenceItem → SuggestOut) :
    (List EvidenceItem × SuggestOut) × Bool :=
  if evidence.isEmpty then (([], SuggestOut.structured noEvidenceSuggestion), false)
  else ((evidence, llm evidence), true)

/-- `aiSopDraft` (src/lib/ai.ts lines 292-377) as a function of the
retrieved evidence list and of the LLM call; same shape as `aiSuggest`. -/
def aiSopDraft (evidence : List EvidenceItem)
    (llm : List EvidenceItem → SopOut) :
    (List EvidenceItem × SopOut) × Bool :=
  if evidence.isEmpty then (([], SopOut.structured noEvidenceSop), false)
  else ((evidence, llm evidence), true)

/-- All fields of a SopDraft that are lists of strings. -/
def sopListFields (s : SopDraft) : List (List String) :=
  [s.symptoms, s.resolution_steps, s.validation_steps,
    s.rollback_procedures, s.references]

/-- C1 (counterexample): at the concrete input evidence = [], `aiSopDraft`
does short-circuit without invoking the LLM, but its canned result is the
literal `noEvidenceSop`, every one of whose list fields is empty — so no
field of the SOP-draft no-evidence result is a non-empty questions list
(its schema has no questions or confidence field at all), refuting the
claim that both call sites return a result with confidence 0 and a
non-empty questions list. -/
theorem noEvidence_sop_counterexample :
    (aiSopDraft [] (fun _ => SopOut.raw "")).1.2 =
      SopOut.structured noEvidenceSop ∧
    (aiSopDraft [] (fun _ => SopOut.raw "")).2 = false ∧
    ∀ l ∈ sopListFields noEvidenceSop, l = [] := by
  refine ⟨rfl, rfl, ?_⟩
  decide

/-- C1 (amended): when the retrieved evidence list is empty, neither
operation ever invokes the LLM.  `aiSuggest` returns the canned suggestion
with overall confidence exactly 0, empty causes and steps, and exactly one
open question; `aiSopDraft` returns the canned SOP draft, whose schema has
no confidence or questions field and all of whose list fields (and root
cause) are empty. -/
theorem noEvidence_short_circuit (evidence : List EvidenceItem)
    (llmS : List EvidenceItem → SuggestOut) (llmD : List EvidenceItem → SopOut)
    (h : evidence = []) :
    (aiSuggest evidence llmS).2 = false ∧
    (aiSuggest evidence llmS).1 = ([], SuggestOut.structured noEvidenceSuggestion) ∧
    noEvidenceSuggestion.confidence_overall = 0 ∧
    noEvidenceSuggestion.root_causes = [] ∧
    noEvidenceSuggestion.recommended_steps = [] ∧
    noEvidenceSuggestion.questions.length = 1 ∧
    (aiSopDraft evidence llmD).2 = false ∧
    (aiSopDraft evidence llmD).1 = ([], SopOut.structured noEvidenceSop) ∧
    noEvidenceSop.root_cause = "" ∧
    (∀ l ∈ sopListFields noEvidenceSop, l = []) := by
  subst h
  refine ⟨rfl, rfl, rfl, rfl, rfl, rfl, rfl, rfl, rfl, ?_⟩
  decide

theorem noEvidence_short_circuit_witness :
    (aiSuggest [] (fun _ => SuggestOut.raw "")).2 = false ∧
    (aiSuggest [] (fun _ => SuggestOut.raw "")).1 =
      ([], SuggestOut.structured noEvidenceSuggestion) :=
  ⟨(noEvidence_short_circuit [] (fun _ => SuggestOut.raw "")
      (fun _ => SopOut.raw "") rfl).1,
    (noEvidence_short_circuit [] (fun _ => SuggestOut.raw "")
      (fun _ => SopOut.raw "") rfl).2.1⟩

/-- Outcome of one `fetch` of `LocalAIConnector.chatCompletion`
(src/lib/ai.ts lines 95-169): the fetch rejects (network failure, or the
30s AbortController timeout), or resolves with `res.ok` false (the code
then throws "LocalAI Error (status)"), or resolves ok with a content
string, whose `JSON.parse` result is modelled as `some` parsed value or
`none` when the content is not valid JSON. -/
inductive FetchOutcome where
  | netErr : FetchOutcome
  | httpErr (status : Nat) (body : String) : FetchOutcome
  | ok (content : String) (parsed : Option String) : FetchOutcome
deriving DecidableEq

/-- What `chatCompletion` returns on a successful attempt. -/
inductive ChatResult where
  | json (v : String)
  | raw (s : String)
  | text (s : String)
deriving DecidableEq

/-- The body of one loop attempt of `chatCompletion`: `none` means the
attempt threw (caught by the retry loop), `some` the value returned.  In
JSON mode a content string that fails to parse is returned as the
`{raw: content}` fallback — inside the try block, hence never retried. -/
def attemptResult (json : Bool) : FetchOutcome → Option ChatResult
  | FetchOutcome.netErr => none
  | FetchOutcome.httpErr _ _ => none
  | FetchOutcome.ok c p =>
    some (if json then (match p with
      | some v => ChatResult.json v
      | none => ChatResult.raw c) else ChatResult.text c)

/-- `chatCompletion`'s retry loop (src/lib/ai.ts lines 91-172):
maxRetries = 3 attempts consuming the three fetch outcomes in order; after
a failed attempt k < 3 the code waits 1000·k ms; after three failures the
last error is thrown.  Result: (outcome, attempts used, backoff waits
performed in ms). -/
def chatCompletion (json : Bool) (r1 r2 r3 : FetchOutcome) :
    Except FetchOutcome ChatResult × Nat × List Nat :=
  match attemptResult json r1 with
  | some out => (Except.ok out, 1, [])
  | none =>
    match attemptResult json r2 with
    | some out => (Except.ok out, 2, [1000])
    | none =>
      match attemptResult json r3 with
      | some out => (Except.ok out, 3, [1000, 2000])
      | none => (Except.error r3, 3, [1000, 2000])

/-- C3 (counterexample): a first attempt failing with HTTP 404 — a
4xx-class failure — is retried: the call makes a second attempt (after a
1000 ms backoff) and succeeds, refuting the claim that 4xx-class failures
are not retried. -/
theorem retry_policy_counterexample :
    chatCompletion true (FetchOutcome.httpErr 404 "not found")
        (FetchOutcome.ok "{}" (some "{}")) (FetchOutcome.ok "{}" (some "{}")) =
      (Except.ok (ChatResult.json "{}"), 2, [1000]) ∧
    (chatCompletion true (FetchOutcome.httpErr 404 "not found")
        (FetchOutcome.ok "{}" (some "{}")) (FetchOutcome.ok "{}" (some "{}"))).2.1 ≠ 1 := by
  refine ⟨rfl, ?_⟩
  decide

/-- C3 (amended): the retry policy is bounded at 3 attempts with a linear
backoff of 1000 ms times the attempt number between attempts; every
fetch-level failure — network/timeout rejection or any non-ok HTTP status,
5xx and 4xx alike — is retried, while a fetch-level success is returned at
once, so malformed JSON output (returned as the raw fallback) is never
retried; the call throws only after all three attempts failed at fetch
level. -/
theorem chatCompletion_retry_policy (json : Bool) (r1 r2 r3 : FetchOutcome) :
    (chatCompletion json r1 r2 r3).2.1 ≤ 3 ∧
    (chatCompletion json r1 r2 r3).2.2 =
      (List.range ((chatCompletion json r1 r2 r3).2.1 - 1)).map
        (fun i => 1000 * (i + 1)) ∧
    (2 ≤ (chatCompletion json r1 r2 r3).2.1 ↔ attemptResult json r1 = none) ∧
    ((chatCompletion json r1 r2 r3).2.1 = 3 ↔
      attemptResult json r1 = none ∧ attemptResult json r2 = none) ∧
    ((∃ e, (chatCompletion json r1 r2 r3).1 = Except.error e) ↔
      attemptResult json r1 = none ∧ attemptResult json r2 = none ∧
        attemptResult json r3 = none) ∧
    (∀ r : FetchOutcome, attemptResult json r = none ↔
      (r = FetchOutcome.netErr ∨ ∃ s b, r = FetchOutcome.httpErr s b)) := by
  have hnone : ∀ r : FetchOutcome, attemptResult json r = none ↔
      (r = FetchOutcome.netErr ∨ ∃ s b, r = FetchOutcome.httpErr s b) := by
    intro r
    cases r with
    | netErr => simp [attemptResult]
    | httpErr s b => simp [attemptResult]
    | ok c p => simp [attemptResult]
  refine ⟨?_, ?_, ?_, ?_, ?_, hnone⟩ <;>
    (unfold chatCompletion) <;>
    (cases h1 : attemptResult json r1 <;>
      cases h2 : attemptResult json r2 <;>
      cases h3 : attemptResult json r3 <;>
      simp [h1, h2, h3, List.range_succ])

/-- C4 (counterexample): the response text "\x7b\"foo\":1\x7d" is valid
JSON, so `JSON.parse` succeeds on it, yet it matches neither mandated
output schema; `chatCompletion` performs no schema validation
(src/lib/ai.ts line 147 returns `JSON.parse(content)` directly), so the
operation returns the parsed object as-is — not the `\x7braw: string\x7d`
fallback the claim requires for schema-violating JSON. -/
theorem malformed_output_counterexample :
    chatCompletion true
        (FetchOutcome.ok "\x7b\"foo\":1\x7d" (some "\x7b\"foo\":1\x7d"))
        FetchOutcome.netErr FetchOutcome.netErr =
      (Except.ok (ChatResult.json "\x7b\"foo\":1\x7d"), 1, []) ∧
    ChatResult.json "\x7b\"foo\":1\x7d" ≠ ChatResult.raw "\x7b\"foo\":1\x7d" := by
  refine ⟨rfl, ?_⟩
  decide

/-- C4 (amended): in JSON mode, a reachable LLM never causes an exception:
whichever attempt receives the 2xx response, a response text that is not
valid JSON (`JSON.parse` fails) is returned as the `\x7braw: content\x7d`
fallback immediately (same attempt, no retry), while a response text that
parses as JSON is returned as the parsed object unchanged — the code does
no schema validation, so schema-violating valid JSON is not wrapped. -/
theorem malformed_output_fallback (c v : String) (r2 r3 : FetchOutcome) :
    attemptResult true (FetchOutcome.ok c none) = some (ChatResult.raw c) ∧
    chatCompletion true (FetchOutcome.ok c none) r2 r3 =
      (Except.ok (ChatResult.raw c), 1, []) ∧
    (∀ r1, attemptResult true r1 = none →
      chatCompletion true r1 (FetchOutcome.ok c none) r3 =
        (Except.ok (ChatResult.raw c), 2, [1000])) ∧
    (∀ r1 r2a, attemptResult true r1 = none → attemptResult true r2a = none →
      chatCompletion true r1 r2a (FetchOutcome.ok c none) =
        (Except.ok (ChatResult.raw c), 3, [1000, 2000])) ∧
    attemptResult true (FetchOutcome.ok c (some v)) = some (ChatResult.json v) ∧
    chatCompletion true (FetchOutcome.ok c (some v)) r2 r3 =
      (Except.ok (ChatResult.json v), 1, []) := by
  refine ⟨rfl, rfl, ?_, ?_, rfl, rfl⟩
  · intro r1 h1
    unfold chatCompletion
    rw [h1]
    rfl
  · intro r1 r2a h1 h2
    unfold chatCompletion
    rw [h1, h2]
    rfl

theorem malformed_output_fallback_witness :
    chatCompletion true FetchOutcome.netErr (FetchOutcome.ok "oops" none)
        FetchOutcome.netErr =
      (Except.ok (ChatResult.raw "oops"), 2, [1000]) :=
  (malformed_output_fallback "oops" "x" (FetchOutcome.ok "oops" none)
    FetchOutcome.netErr).2.2.1 FetchOutcome.netErr rfl

end IssueTracker
